import Mathlib

/-!
Verification of the `file` package of simpledb-in-golang: a shallow
embedding of `page.go` and `filemgr.go`, and theorems settling the
spec's claims about them.

Modelling conventions:
* a Go byte buffer (`[]byte`) is a `List Nat` whose entries are byte
  values (< 256 for buffers produced by the code itself);
* Go `int` values (offsets, block numbers, integers stored in pages)
  are `Int`; conversions such as `uint32(v)` are explicit `% 2 ^ 32`;
* functions that return a Go `error` return `Except`/`Option` results;
  operations that mutate a buffer in place are modelled by returning
  the new buffer alongside the error slot, with the unchanged buffer
  returned on the error paths (the Go code performs no writes before
  any of its error returns);
* a Go runtime panic (out-of-range slice expression such as
  `p.buf[offset:]` with a negative offset) is modelled as the distinct
  error value `fault`, since it is not a returned error;
* the OS file system visible to `FileMgr` is an association list from
  filename to file contents; OS-level failures (open/stat/sync errors)
  are not modelled, matching a healthy disk.
-/

namespace SimpleDB

/-- `binary.BigEndian.PutUint32`: the four big-endian bytes of a value
`v < 2 ^ 32` (most significant byte first), as written into a buffer. -/
def putUint32 (v : Nat) : List Nat :=
  [v / 2 ^ 24 % 256, v / 2 ^ 16 % 256, v / 2 ^ 8 % 256, v % 256]

/-- `binary.BigEndian.Uint32(buf[off:])`: recombine the four bytes at
`off`, `off+1`, `off+2`, `off+3` big-endian. The default `0` of `getD`
is never used at in-bounds offsets. -/
def getUint32At (buf : List Nat) (off : Nat) : Nat :=
  buf.getD off 0 * 2 ^ 24 + buf.getD (off + 1) 0 * 2 ^ 16 +
    buf.getD (off + 2) 0 * 2 ^ 8 + buf.getD (off + 3) 0

/-- Overwrite `content` with `data` starting at byte offset `off`,
zero-filling the gap when `off` lies past the end (the behaviour of a
positional file write past EOF, and of in-bounds buffer writes where
the padding is empty). -/
def writeAt (content : List Nat) (off : Nat) (data : List Nat) : List Nat :=
  content.take off ++ List.replicate (off - content.length) 0 ++ data ++
    content.drop (off + data.length)

/-- Failure modes of the Page operations: `bounds` is the returned
"out of bounds" error; `fault` is the runtime slice-bounds panic that
a negative offset triggers in the slice expression `p.buf[offset:]`
after the `offset+4 > len(p.buf)` check has passed. -/
inductive PageErr
  | bounds
  | fault
deriving DecidableEq

/-- `Page`: the in-memory block buffer (`p.buf`). -/
abbrev Page := List Nat

/-- `NewPage(blocksize)`: a zero page of the given size. -/
def NewPage (blocksize : Nat) : Page := List.replicate blocksize 0

/-- `Page.GetInt`: bounds check `offset+4 > len(p.buf)`, then read a
big-endian 32-bit value; Go's `int(uint32)` conversion yields a
non-negative `int`, which we model as `Int.ofNat`. -/
def Page.GetInt (p : Page) (off : Int) : Except PageErr Int :=
  if (p.length : Int) < off + 4 then .error .bounds
  else if off < 0 then .error .fault
  else .ok (getUint32At p off.toNat)

/-- `Page.SetInt`: bounds check, then store the four big-endian bytes
of `uint32(v)`, i.e. of `v` reduced modulo `2 ^ 32`. Returns the new
buffer and the error slot; on the error paths the buffer is the
untouched input, as in the source, where the checks precede every
write. -/
def Page.SetInt (p : Page) (off : Int) (v : Int) : Page × Option PageErr :=
  if (p.length : Int) < off + 4 then (p, some .bounds)
  else if off < 0 then (p, some .fault)
  else (writeAt p off.toNat (putUint32 (v % 2 ^ 32).toNat), none)

/-- `Page.GetBytes`: read the 4-byte length header, bounds check
`end > len(p.buf)` for the payload, and return a copy of the payload
bytes. -/
def Page.GetBytes (p : Page) (off : Int) : Except PageErr (List Nat) :=
  if (p.length : Int) < off + 4 then .error .bounds
  else if off < 0 then .error .fault
  else if p.length < off.toNat + 4 + getUint32At p off.toNat then .error .bounds
  else .ok ((p.drop (off.toNat + 4)).take (getUint32At p off.toNat))

/-- `Page.SetBytes`: bounds check `offset+4+len(b) > len(p.buf)`, then
store the 4-byte header `uint32(len(b))` (the length reduced modulo
`2 ^ 32`) followed by all the bytes of `b`. -/
def Page.SetBytes (p : Page) (off : Int) (b : List Nat) : Page × Option PageErr :=
  if (p.length : Int) < off + 4 + b.length then (p, some .bounds)
  else if off < 0 then (p, some .fault)
  else (writeAt p off.toNat (putUint32 (b.length % 2 ^ 32) ++ b), none)

/-- `Page.GetString`: `GetBytes` followed by `string(b)`; a Go string
is its raw byte sequence, so the conversion is the identity on the
byte list. -/
def Page.GetString (p : Page) (off : Int) : Except PageErr (List Nat) :=
  Page.GetBytes p off

/-- `Page.SetString`: `SetBytes` on the raw bytes of the string. -/
def Page.SetString (p : Page) (off : Int) (s : List Nat) : Page × Option PageErr :=
  Page.SetBytes p off s

/-- `BlockId`: filename plus zero-based block number (a Go `int`,
which may be negative if a caller supplies one). -/
structure BlockId where
  filename : String
  blknum : Int
deriving DecidableEq

/-- The file system visible to `FileMgr`: filename to file contents. -/
abbrev FS := List (String × List Nat)

/-- Look up a file's contents by name. -/
def fsLookup : FS → String → Option (List Nat)
  | [], _ => none
  | (n, c) :: rest, name => if n = name then some c else fsLookup rest name

/-- Replace a file's contents (or add the file at the end). -/
def fsSet : FS → String → List Nat → FS
  | [], name, c => [(name, c)]
  | (n, d) :: rest, name, c =>
      if n = name then (name, c) :: rest else (n, d) :: fsSet rest name c

/-- `FileMgr.getFile`: reuse the handle for an existing file, or open
with `O_CREATE`, which creates the file empty when it does not exist. -/
def getFile (fs : FS) (name : String) : FS :=
  match fsLookup fs name with
  | some _ => fs
  | none => fs ++ [(name, [])]

/-- The contents of an (existing) file. -/
def fileContent (fs : FS) (name : String) : List Nat :=
  (fsLookup fs name).getD []

/-- Failure modes of the FileMgr operations: the "page size !=
blocksize" errors, the `Seek` error for a negative byte offset, and
the two short-read errors of `io.ReadFull` (`EOF` when no byte was
available, `ErrUnexpectedEOF` when some but not all were). -/
inductive FErr
  | pageSizeMismatch
  | negativeSeek
  | eof
  | unexpectedEOF
deriving DecidableEq

/-- `io.ReadFull(f, p.buf)` at position `off` of a file with the given
contents: the `k = min blocksize available` bytes that the file can
supply are copied into the front of the buffer; the call succeeds only
when `k` fills the buffer, reports `EOF` when `k = 0`, and
`ErrUnexpectedEOF` otherwise — having already deposited the `k` bytes. -/
def readFull (content : List Nat) (off bs : Nat) (p : Page) : Page × Option FErr :=
  ((content.drop off).take (min bs (content.length - off)) ++
      p.drop (min bs (content.length - off)),
   if min bs (content.length - off) = bs then none
   else if min bs (content.length - off) = 0 then some .eof
   else some .unexpectedEOF)

/-- `FileMgr.Read`: reject a page whose buffer length differs from the
block size before any file access; otherwise open (creating if absent)
the file, seek to `blknum * blocksize` (an error when negative), and
`io.ReadFull` into the page buffer. Returns the file system, the page
buffer, and the error slot. -/
def FileMgr.Read (bs : Nat) (fs : FS) (blk : BlockId) (p : Page) :
    FS × Page × Option FErr :=
  if p.length ≠ bs then (fs, p, some .pageSizeMismatch)
  else if blk.blknum * (bs : Int) < 0 then
    (getFile fs blk.filename, p, some .negativeSeek)
  else
    (getFile fs blk.filename,
     readFull (fileContent (getFile fs blk.filename) blk.filename)
       (blk.blknum * (bs : Int)).toNat bs p)

/-- `FileMgr.Write`: same page-size precondition; then write the whole
buffer at `blknum * blocksize` (zero-filling any gap past the current
end of file, as a positional write does) and sync. -/
def FileMgr.Write (bs : Nat) (fs : FS) (blk : BlockId) (p : Page) :
    FS × Option FErr :=
  if p.length ≠ bs then (fs, some .pageSizeMismatch)
  else if blk.blknum * (bs : Int) < 0 then
    (getFile fs blk.filename, some .negativeSeek)
  else
    (fsSet (getFile fs blk.filename) blk.filename
       (writeAt (fileContent (getFile fs blk.filename) blk.filename)
         (blk.blknum * (bs : Int)).toNat p),
     none)

/-- `FileMgr.Length`: open (creating if absent) the file and return
its byte size divided by the block size with truncating division. -/
def FileMgr.Length (bs : Nat) (fs : FS) (name : String) : FS × Except FErr Nat :=
  (getFile fs name, .ok ((fileContent (getFile fs name) name).length / bs))

/-- `FileMgr.Append`: open (creating if absent) the file, compute the
new block number as size divided by blocksize, write a zero-filled
block at that position with `WriteAt`, sync, and return its BlockId. -/
def FileMgr.Append (bs : Nat) (fs : FS) (name : String) :
    FS × Except FErr BlockId :=
  (fsSet (getFile fs name) name
     (writeAt (fileContent (getFile fs name) name)
       ((fileContent (getFile fs name) name).length / bs * bs)
       (List.replicate bs 0)),
   .ok ⟨name, ((fileContent (getFile fs name) name).length / bs : Nat)⟩)

/-- `k` sequential `FileMgr.Append(name)` calls starting from `fs`:
the resulting file system. -/
def iterAppend (bs : Nat) (name : String) : Nat → FS → FS
  | 0, fs => fs
  | n + 1, fs => (FileMgr.Append bs (iterAppend bs name n fs) name).1

/-- `strings.HasPrefix(s, pre)`:
`len(s) >= len(pre) && s[0:len(pre)] == pre`, byte-wise. -/
def startsWithGo (s pre : String) : Bool :=
  decide (pre.data.length ≤ s.data.length) &&
    s.data.take pre.data.length == pre.data

/-- `os.Remove` of a plain file: drop the named entry. -/
def removeFile (fs : FS) (name : String) : FS :=
  fs.filter fun nc => !(nc.1 == name)

/-- The `for _, e := range entries` loop of `NewFileMgr`: walk the
directory listing taken before any removal, deleting each entry whose
name has the prefix `"temp"`. -/
def cleanupLoop (entries : List String) (fs : FS) : FS :=
  match entries with
  | [] => fs
  | e :: rest =>
      cleanupLoop rest (if startsWithGo e "temp" then removeFile fs e else fs)

/-- The temp-file cleanup `NewFileMgr` performs on an existing managed
directory of plain files, modelled as the file map `fs`. -/
def NewFileMgrCleanup (fs : FS) : FS :=
  cleanupLoop (fs.map fun nc => nc.1) fs

instance : DecidableEq (Except PageErr (List Nat)) := fun a b =>
  match a, b with
  | .ok x, .ok y => decidable_of_iff (x = y) (by simp)
  | .error x, .error y => decidable_of_iff (x = y) (by simp)
  | .ok _, .error _ => isFalse fun h => Except.noConfusion h
  | .error _, .ok _ => isFalse fun h => Except.noConfusion h

instance : DecidableEq (Except PageErr Int) := fun a b =>
  match a, b with
  | .ok x, .ok y => decidable_of_iff (x = y) (by simp)
  | .error x, .error y => decidable_of_iff (x = y) (by simp)
  | .ok _, .error _ => isFalse fun h => Except.noConfusion h
  | .error _, .ok _ => isFalse fun h => Except.noConfusion h

/-! ### Helper lemmas about the buffer primitives -/

theorem writeAt_length (c d : List Nat) (k : Nat) (h : k + d.length ≤ c.length) :
    (writeAt c k d).length = c.length := by
  simp only [writeAt, List.length_append, List.length_take, List.length_replicate,
    List.length_drop]
  omega

theorem writeAt_drop (c d : List Nat) (k : Nat) (h : k ≤ c.length) :
    (writeAt c k d).drop k = d ++ c.drop (k + d.length) := by
  have hk : k - c.length = 0 := by omega
  have hl : (c.take k).length = k := by
    simp only [List.length_take]
    omega
  simp only [writeAt, hk, List.replicate_zero, List.nil_append, List.append_nil,
    List.append_assoc]
  exact List.drop_left' hl

theorem writeAt_getD (c d : List Nat) (k i : Nat) (hk : k ≤ c.length)
    (hi : i < d.length) : (writeAt c k d).getD (k + i) 0 = d.getD i 0 := by
  rw [List.getD_eq_getElem?_getD, ← List.getElem?_drop, writeAt_drop c d k hk,
    List.getElem?_append_left hi, ← List.getD_eq_getElem?_getD]

theorem getUint32At_writeAt (c d : List Nat) (k : Nat) (hk : k + d.length ≤ c.length)
    (h4 : 4 ≤ d.length) :
    getUint32At (writeAt c k d) k =
      d.getD 0 0 * 2 ^ 24 + d.getD 1 0 * 2 ^ 16 + d.getD 2 0 * 2 ^ 8 + d.getD 3 0 := by
  have hkc : k ≤ c.length := by omega
  have g0 := writeAt_getD c d k 0 hkc (by omega)
  have g1 := writeAt_getD c d k 1 hkc (by omega)
  have g2 := writeAt_getD c d k 2 hkc (by omega)
  have g3 := writeAt_getD c d k 3 hkc (by omega)
  simp only [Nat.add_zero] at g0
  simp only [getUint32At, g0, g1, g2, g3]

theorem getD_putUint32_append (n : Nat) (tail : List Nat) :
    (putUint32 n ++ tail).getD 0 0 = n / 2 ^ 24 % 256 ∧
    (putUint32 n ++ tail).getD 1 0 = n / 2 ^ 16 % 256 ∧
    (putUint32 n ++ tail).getD 2 0 = n / 2 ^ 8 % 256 ∧
    (putUint32 n ++ tail).getD 3 0 = n % 256 := by
  simp [putUint32]

/-! ### C1 -/

/-- C1 (amended): for every in-range offset (`0 ≤ offset`,
`offset + 4 ≤ blocksize`) and every integer `v`, `SetInt(offset, v)`
succeeds and `GetInt(offset)` then returns `v` reduced modulo `2 ^ 32`
(a value in `[0, 2 ^ 32)`): the round-trip is exact precisely for
`0 ≤ v < 2 ^ 32`, while negative values come back as their unsigned
32-bit reinterpretation. -/
theorem C1_theorem (p : Page) (off v : Int) (h0 : 0 ≤ off)
    (h4 : off + 4 ≤ (p.length : Int)) :
    (Page.SetInt p off v).2 = none ∧
    Page.GetInt (Page.SetInt p off v).1 off = .ok (v % 2 ^ 32) := by
  have e32i : (2 : Int) ^ 32 = 4294967296 := by norm_num
  have e32n : (2 : Nat) ^ 32 = 4294967296 := by norm_num
  have hnot1 : ¬ ((p.length : Int) < off + 4) := by omega
  have hnot2 : ¬ (off < 0) := by omega
  have hk : off.toNat + 4 ≤ p.length := by omega
  have hm : (v % 2 ^ 32).toNat < 2 ^ 32 := by rw [e32i, e32n]; omega
  simp only [Page.SetInt, if_neg hnot1, if_neg hnot2]
  refine ⟨by trivial, ?_⟩
  have hdl : (putUint32 (v % 2 ^ 32).toNat).length = 4 := rfl
  have hwl : (writeAt p off.toNat (putUint32 (v % 2 ^ 32).toNat)).length =
      p.length := by
    rw [writeAt_length]
    omega
  have hg := getUint32At_writeAt p (putUint32 (v % 2 ^ 32).toNat) off.toNat
    (by omega) (by omega)
  have hbytes := getD_putUint32_append (v % 2 ^ 32).toNat []
  simp only [List.append_nil] at hbytes
  simp only [Page.GetInt, hwl, if_neg hnot1, if_neg hnot2, hg, hbytes.1,
    hbytes.2.1, hbytes.2.2.1, hbytes.2.2.2]
  have : (v % 2 ^ 32).toNat / 2 ^ 24 % 256 * 2 ^ 24 +
      (v % 2 ^ 32).toNat / 2 ^ 16 % 256 * 2 ^ 16 +
      (v % 2 ^ 32).toNat / 2 ^ 8 % 256 * 2 ^ 8 +
      (v % 2 ^ 32).toNat % 256 = (v % 2 ^ 32).toNat := by omega
  rw [this]
  have hnn : 0 ≤ v % 2 ^ 32 := by rw [e32i]; omega
  rw [Int.toNat_of_nonneg hnn]

/-- Witness for C1: the amended round-trip at a concrete input. -/
theorem C1_witness :
    (Page.SetInt (List.replicate 8 0) 2 (-5)).2 = none ∧
    Page.GetInt (Page.SetInt (List.replicate 8 0) 2 (-5)).1 2 =
      .ok ((-5 : Int) % 2 ^ 32) :=
  C1_theorem (List.replicate 8 0) 2 (-5) (by decide) (by decide)

/-- Counterexample for C1 as stated: storing `-1` at offset `0` of a
fresh 8-byte page succeeds, but reading it back yields `4294967295`
rather than `-1` — `GetInt` converts through `uint32` and never
sign-extends. -/
theorem C1_counterexample :
    (Page.SetInt (List.replicate 8 0) 0 (-1)).2 = none ∧
    Page.GetInt (Page.SetInt (List.replicate 8 0) 0 (-1)).1 0 = .ok 4294967295 ∧
    (4294967295 : Int) ≠ -1 := by
  refine ⟨by decide, by decide, by decide⟩

/-! ### C10 -/

/-- C10: `SetInt` accepts any machine integer and stores only its value
modulo `2 ^ 32` (it behaves identically on `v` and `v % 2 ^ 32`), and a
successful `GetInt` on a well-formed byte buffer always returns a
non-negative value below `2 ^ 32`. -/
theorem C10_theorem (p : Page) (off v r : Int) :
    Page.SetInt p off v = Page.SetInt p off (v % 2 ^ 32) ∧
    ((∀ x ∈ p, x < 256) → Page.GetInt p off = .ok r → 0 ≤ r ∧ r < 2 ^ 32) := by
  constructor
  · simp only [Page.SetInt, Int.emod_emod_of_dvd v dvd_rfl]
  · intro hwf hok
    have key : ∀ j, p.getD j 0 < 256 := by
      intro j
      by_cases hj : j < p.length
      · rw [List.getD_eq_getElem?_getD, List.getElem?_eq_getElem hj]
        exact hwf _ (List.getElem_mem hj)
      · rw [List.getD_eq_default _ _ (by omega)]
        norm_num
    rw [Page.GetInt] at hok
    by_cases h1 : (p.length : Int) < off + 4
    · rw [if_pos h1] at hok
      exact absurd hok (by simp)
    · rw [if_neg h1] at hok
      by_cases h2 : off < 0
      · rw [if_pos h2] at hok
        exact absurd hok (by simp)
      · rw [if_neg h2] at hok
        have hr : (getUint32At p off.toNat : Int) = r := by
          rw [Except.ok.injEq] at hok
          exact hok
        have b0 := key off.toNat
        have b1 := key (off.toNat + 1)
        have b2 := key (off.toNat + 2)
        have b3 := key (off.toNat + 3)
        have hb : getUint32At p off.toNat < 2 ^ 32 := by
          simp only [getUint32At]
          omega
        constructor
        · omega
        · have e32i : (2 : Int) ^ 32 = 4294967296 := by norm_num
          have e32n : (2 : Nat) ^ 32 = 4294967296 := by norm_num
          rw [e32i]
          rw [e32n] at hb
          omega

/-- Witness for C10 at a concrete page, offset and value. -/
theorem C10_witness :
    Page.SetInt [0, 0, 0, 1] 0 5 = Page.SetInt [0, 0, 0, 1] 0 (5 % 2 ^ 32) ∧
    (0 ≤ (1 : Int) ∧ (1 : Int) < 2 ^ 32) :=
  ⟨(C10_theorem [0, 0, 0, 1] 0 5 1).1,
   (C10_theorem [0, 0, 0, 1] 0 5 1).2 (by decide) (by decide)⟩

/-! ### C2 -/

/-- C2 (amended): every Page operation fails and leaves the buffer
unmutated whenever its addressed byte range is not fully contained in
`[0, blocksize)`; a range overrunning the top end produces the returned
bounds error, while a negative offset (with the top-end check passing)
produces a runtime slice-bounds panic (`fault`) instead of a returned
error; a range ending exactly at `blocksize` succeeds, and one byte
past fails. For `GetBytes`/`GetString` the addressed range is
determined by the stored 4-byte length header `L`: the operation
succeeds exactly when `[offset, offset+4+L)` fits. -/
theorem C2_theorem (p : Page) (off v : Int) (b : List Nat) :
    (¬ (0 ≤ off ∧ off + 4 ≤ (p.length : Int)) →
      (Page.SetInt p off v).1 = p ∧ (Page.SetInt p off v).2 ≠ none) ∧
    ((p.length : Int) < off + 4 → (Page.SetInt p off v).2 = some PageErr.bounds) ∧
    (off < 0 → off + 4 ≤ (p.length : Int) →
      (Page.SetInt p off v).2 = some PageErr.fault) ∧
    (0 ≤ off → off + 4 ≤ (p.length : Int) → (Page.SetInt p off v).2 = none) ∧
    ((p.length : Int) < off + 4 → Page.GetInt p off = .error PageErr.bounds) ∧
    (off < 0 → off + 4 ≤ (p.length : Int) →
      Page.GetInt p off = .error PageErr.fault) ∧
    (0 ≤ off → off + 4 ≤ (p.length : Int) → ∃ r, Page.GetInt p off = .ok r) ∧
    (¬ (0 ≤ off ∧ off + 4 + (b.length : Int) ≤ (p.length : Int)) →
      (Page.SetBytes p off b).1 = p ∧ (Page.SetBytes p off b).2 ≠ none) ∧
    (0 ≤ off → off + 4 + (b.length : Int) ≤ (p.length : Int) →
      (Page.SetBytes p off b).2 = none) ∧
    (¬ (0 ≤ off ∧ off + 4 + (getUint32At p off.toNat : Int) ≤ (p.length : Int)) →
      ∃ e, Page.GetBytes p off = .error e) ∧
    (0 ≤ off → off + 4 + (getUint32At p off.toNat : Int) ≤ (p.length : Int) →
      ∃ r, Page.GetBytes p off = .ok r) ∧
    (¬ (0 ≤ off ∧ off + 4 + (b.length : Int) ≤ (p.length : Int)) →
      (Page.SetString p off b).1 = p ∧ (Page.SetString p off b).2 ≠ none) ∧
    (0 ≤ off → off + 4 + (b.length : Int) ≤ (p.length : Int) →
      (Page.SetString p off b).2 = none) ∧
    (¬ (0 ≤ off ∧ off + 4 + (getUint32At p off.toNat : Int) ≤ (p.length : Int)) →
      ∃ e, Page.GetString p off = .error e) ∧
    (0 ≤ off → off + 4 + (getUint32At p off.toNat : Int) ≤ (p.length : Int) →
      ∃ r, Page.GetString p off = .ok r) := by
  have hL : (0 : Int) ≤ (getUint32At p off.toNat : Int) := Int.ofNat_nonneg _
  have hB : (0 : Int) ≤ (b.length : Int) := Int.ofNat_nonneg _
  have setBytesFail : ¬ (0 ≤ off ∧ off + 4 + (b.length : Int) ≤ (p.length : Int)) →
      (Page.SetBytes p off b).1 = p ∧ (Page.SetBytes p off b).2 ≠ none := by
    intro h
    simp only [Page.SetBytes]
    split_ifs with h1 h2
    · exact ⟨rfl, by simp⟩
    · exact ⟨rfl, by simp⟩
    · exact absurd ⟨by omega, by omega⟩ h
  have setBytesOk : 0 ≤ off → off + 4 + (b.length : Int) ≤ (p.length : Int) →
      (Page.SetBytes p off b).2 = none := by
    intro h1 h2
    simp only [Page.SetBytes, if_neg (by omega : ¬ ((p.length : Int) < off + 4 + (b.length : Int))),
      if_neg (by omega : ¬ (off < 0))]
  have getBytesFail :
      ¬ (0 ≤ off ∧ off + 4 + (getUint32At p off.toNat : Int) ≤ (p.length : Int)) →
      ∃ e, Page.GetBytes p off = .error e := by
    intro h
    simp only [Page.GetBytes]
    split_ifs with h1 h2 h3
    · exact ⟨_, rfl⟩
    · exact ⟨_, rfl⟩
    · exact ⟨_, rfl⟩
    · exact absurd ⟨by omega, by omega⟩ h
  have getBytesOk : 0 ≤ off →
      off + 4 + (getUint32At p off.toNat : Int) ≤ (p.length : Int) →
      ∃ r, Page.GetBytes p off = .ok r := by
    intro h1 h2
    simp only [Page.GetBytes, if_neg (by omega : ¬ ((p.length : Int) < off + 4)),
      if_neg (by omega : ¬ (off < 0)),
      if_neg (by omega : ¬ (p.length < off.toNat + 4 + getUint32At p off.toNat))]
    exact ⟨_, rfl⟩
  refine ⟨?_, ?_, ?_, ?_, ?_, ?_, ?_, setBytesFail, setBytesOk, getBytesFail,
    getBytesOk, ?_, ?_, ?_, ?_⟩
  · intro h
    simp only [Page.SetInt]
    split_ifs with h1 h2
    · exact ⟨rfl, by simp⟩
    · exact ⟨rfl, by simp⟩
    · exact absurd ⟨by omega, by omega⟩ h
  · intro h1
    simp only [Page.SetInt, if_pos h1]
  · intro h1 h2
    simp only [Page.SetInt, if_neg (by omega : ¬ ((p.length : Int) < off + 4)),
      if_pos h1]
  · intro h1 h2
    simp only [Page.SetInt, if_neg (by omega : ¬ ((p.length : Int) < off + 4)),
      if_neg (by omega : ¬ (off < 0))]
  · intro h1
    simp only [Page.GetInt, if_pos h1]
  · intro h1 h2
    simp only [Page.GetInt, if_neg (by omega : ¬ ((p.length : Int) < off + 4)),
      if_pos h1]
  · intro h1 h2
    simp only [Page.GetInt, if_neg (by omega : ¬ ((p.length : Int) < off + 4)),
      if_neg (by omega : ¬ (off < 0))]
    exact ⟨_, rfl⟩
  · intro h
    simp only [Page.SetString]
    exact setBytesFail h
  · intro h1 h2
    simp only [Page.SetString]
    exact setBytesOk h1 h2
  · intro h
    simp only [Page.GetString]
    exact getBytesFail h
  · intro h1 h2
    simp only [Page.GetString]
    exact getBytesOk h1 h2

/-- Witness for C2: out-of-range `SetInt` leaves the buffer unchanged
and reports a failure; the exact-boundary `SetInt` succeeds. -/
theorem C2_witness :
    ((Page.SetInt (List.replicate 8 0) 6 0).1 = List.replicate 8 0 ∧
      (Page.SetInt (List.replicate 8 0) 6 0).2 ≠ none) ∧
    (Page.SetInt (List.replicate 8 0) 4 0).2 = none :=
  ⟨(C2_theorem (List.replicate 8 0) 6 0 []).1 (by decide),
   (C2_theorem (List.replicate 8 0) 4 0 []).2.2.2.1 (by decide) (by decide)⟩

/-- Counterexample for C2 as stated: at a negative offset the Go code
passes the `offset+4 > len(p.buf)` check and then panics in the slice
expression `p.buf[offset:]` — a runtime fault, not the returned bounds
error the claim describes (the buffer is still left unmutated). -/
theorem C2_counterexample :
    Page.SetInt (List.replicate 8 0) (-1) 5 =
      (List.replicate 8 0, some PageErr.fault) ∧
    Page.GetInt (List.replicate 8 0) (-1) = .error PageErr.fault ∧
    PageErr.fault ≠ PageErr.bounds := by
  refine ⟨by decide, by decide, by decide⟩

/-! ### C5 -/

/-- C5 (amended): for every byte sequence `b` with `len(b) < 2 ^ 32`
(including the empty sequence) and every offset with
`0 ≤ offset ∧ offset + 4 + len(b) ≤ blocksize`, `SetBytes` succeeds and
`GetBytes` returns exactly `b`; likewise `SetString`/`GetString` on the
raw bytes of a string. (For `len(b) ≥ 2 ^ 32` the 4-byte header stores
`len(b) mod 2 ^ 32` and the round-trip fails; the returned sequence is
a fresh copy by the `make`/`copy` in the source, which a pure embedding
renders as a value.) -/
theorem C5_theorem (p : Page) (off : Int) (b : List Nat) (h0 : 0 ≤ off)
    (hfit : off + 4 + (b.length : Int) ≤ (p.length : Int))
    (hlen : b.length < 2 ^ 32) :
    (Page.SetBytes p off b).2 = none ∧
    Page.GetBytes (Page.SetBytes p off b).1 off = .ok b ∧
    (Page.SetString p off b).2 = none ∧
    Page.GetString (Page.SetString p off b).1 off = .ok b := by
  have hnot1 : ¬ ((p.length : Int) < off + 4 + (b.length : Int)) := by omega
  have hnot2 : ¬ (off < 0) := by omega
  have hk : off.toNat + 4 + b.length ≤ p.length := by omega
  have hmod : b.length % 2 ^ 32 = b.length := Nat.mod_eq_of_lt hlen
  have hset : Page.SetBytes p off b =
      (writeAt p off.toNat (putUint32 b.length ++ b), none) := by
    rw [Page.SetBytes, if_neg hnot1, if_neg hnot2, hmod]
  have hdl : (putUint32 b.length ++ b).length = 4 + b.length := by
    simp only [List.length_append, putUint32, List.length_cons, List.length_nil]
  have hwl : (writeAt p off.toNat (putUint32 b.length ++ b)).length = p.length := by
    rw [writeAt_length]
    omega
  have hget : Page.GetBytes (writeAt p off.toNat (putUint32 b.length ++ b)) off =
      .ok b := by
    have hg := getUint32At_writeAt p (putUint32 b.length ++ b) off.toNat
      (by omega) (by omega)
    have hbytes := getD_putUint32_append b.length b
    have hgv : getUint32At (writeAt p off.toNat (putUint32 b.length ++ b))
        off.toNat = b.length := by
      rw [hg, hbytes.1, hbytes.2.1, hbytes.2.2.1, hbytes.2.2.2]
      have e32n : (2 : Nat) ^ 32 = 4294967296 := by norm_num
      rw [e32n] at hlen
      omega
    rw [Page.GetBytes, hwl, if_neg (by omega : ¬ ((p.length : Int) < off + 4)),
      if_neg hnot2, hgv, if_neg (by omega : ¬ (p.length < off.toNat + 4 + b.length))]
    have hdrop : (writeAt p off.toNat (putUint32 b.length ++ b)).drop off.toNat =
        (putUint32 b.length ++ b) ++ p.drop (off.toNat + (4 + b.length)) := by
      rw [writeAt_drop _ _ _ (by omega), hdl]
    have hdrop4 : (writeAt p off.toNat (putUint32 b.length ++ b)).drop
        (off.toNat + 4) = b ++ p.drop (off.toNat + (4 + b.length)) := by
      rw [← List.drop_drop, hdrop, List.append_assoc,
        List.drop_left' (show (putUint32 b.length).length = 4 from rfl)]
    rw [hdrop4, List.take_left]
  refine ⟨by rw [hset], by rw [hset]; exact hget, ?_, ?_⟩
  · rw [Page.SetString, hset]
  · rw [Page.SetString, Page.GetString, hset]
    exact hget

/-- Witness for C5: round-trip of a concrete two-byte sequence. -/
theorem C5_witness :
    (Page.SetBytes (List.replicate 12 0) 1 [5, 6]).2 = none ∧
    Page.GetBytes (Page.SetBytes (List.replicate 12 0) 1 [5, 6]).1 1 =
      .ok [5, 6] ∧
    (Page.SetString (List.replicate 12 0) 1 [5, 6]).2 = none ∧
    Page.GetString (Page.SetString (List.replicate 12 0) 1 [5, 6]).1 1 =
      .ok [5, 6] :=
  C5_theorem (List.replicate 12 0) 1 [5, 6] (by decide) (by decide) (by decide)

/-- Writing a byte sequence that exactly fills the page at offset 0
is accepted, and the stored header is the length modulo 2 ^ 32. -/
theorem setBytes_exact_fit (p : Page) (b : List Nat) (hp : p.length = 4 + b.length) :
    Page.SetBytes p 0 b = (putUint32 (b.length % 2 ^ 32) ++ b, none) := by
  have hnot1 : ¬ ((p.length : Int) < 0 + 4 + (b.length : Int)) := by
    rw [hp]
    push_cast
    omega
  rw [Page.SetBytes, if_neg hnot1, if_neg (by omega : ¬ ((0 : Int) < 0))]
  congr 1
  rw [show (0 : Int).toNat = 0 from rfl, writeAt, List.take_zero, Nat.zero_sub,
    List.replicate_zero, List.nil_append, List.nil_append,
    show 0 + (putUint32 (b.length % 2 ^ 32) ++ b).length = p.length by
      rw [List.length_append, hp]
      simp [putUint32],
    List.drop_length, List.append_nil]

/-- Reading back from a buffer whose stored length header is zero
yields the empty sequence. -/
theorem getBytes_zero_header (t : List Nat) :
    Page.GetBytes ([0, 0, 0, 0] ++ t) 0 = .ok [] := by
  have hlen : (([0, 0, 0, 0] ++ t : List Nat)).length = 4 + t.length := by
    simp
    omega
  have hL : getUint32At ([0, 0, 0, 0] ++ t) 0 = 0 := by
    simp [getUint32At]
  rw [Page.GetBytes, if_neg (by rw [hlen]; push_cast; omega),
    if_neg (by omega : ¬ ((0 : Int) < 0)), show (0 : Int).toNat = 0 from rfl, hL,
    if_neg (by rw [hlen]; omega)]
  simp

/-- Counterexample for C5 as stated: with `blocksize = 2 ^ 32 + 4`, a
byte sequence of length `2 ^ 32` fits exactly at offset `0` and
`SetBytes` succeeds, but the 4-byte header stores
`2 ^ 32 mod 2 ^ 32 = 0`, so `GetBytes` returns the empty sequence
instead of the stored sequence. -/
theorem C5_counterexample :
    (Page.SetBytes (List.replicate (2 ^ 32 + 4) 0) 0 (List.replicate (2 ^ 32) 1)).2 =
      none ∧
    Page.GetBytes (Page.SetBytes (List.replicate (2 ^ 32 + 4) 0) 0
      (List.replicate (2 ^ 32) 1)).1 0 = .ok [] ∧
    Page.GetBytes (Page.SetBytes (List.replicate (2 ^ 32 + 4) 0) 0
      (List.replicate (2 ^ 32) 1)).1 0 ≠ .ok (List.replicate (2 ^ 32) 1) := by
  have hp : (List.replicate (2 ^ 32 + 4) (0 : Nat)).length =
      4 + (List.replicate (2 ^ 32) (1 : Nat)).length := by
    rw [List.length_replicate, List.length_replicate, Nat.add_comm]
  have hset := setBytes_exact_fit _ _ hp
  have hmod : (List.replicate (2 ^ 32) (1 : Nat)).length % 2 ^ 32 = 0 := by
    rw [List.length_replicate]
    exact Nat.mod_self _
  rw [hmod, show putUint32 0 = [0, 0, 0, 0] from rfl] at hset
  have hget := getBytes_zero_header (List.replicate (2 ^ 32) (1 : Nat))
  refine ⟨by rw [hset], by rw [hset]; exact hget, ?_⟩
  rw [hset]
  show Page.GetBytes ([0, 0, 0, 0] ++ List.replicate (2 ^ 32) 1) 0 ≠
    .ok (List.replicate (2 ^ 32) 1)
  rw [hget]
  intro h
  rw [Except.ok.injEq] at h
  have hlen2 := congrArg List.length h
  rw [List.length_replicate] at hlen2
  norm_num at hlen2

/-! ### C6 -/

/-- C6: `FileMgr.Read` and `FileMgr.Write` with a page whose buffer
length differs from the configured block size always fail with the
size-mismatch error, regardless of the BlockId, and fail immediately
without touching the file system (no file is opened or created) and
without touching the page. -/
theorem C6_theorem (bs : Nat) (fs : FS) (blk : BlockId) (p : Page)
    (h : p.length ≠ bs) :
    FileMgr.Read bs fs blk p = (fs, p, some FErr.pageSizeMismatch) ∧
    FileMgr.Write bs fs blk p = (fs, some FErr.pageSizeMismatch) := by
  rw [FileMgr.Read, FileMgr.Write, if_pos h, if_pos h]
  exact ⟨rfl, rfl⟩

/-- Witness for C6: a 3-byte page against block size 4, even with a
negative block number. -/
theorem C6_witness :
    FileMgr.Read 4 [] ⟨"g", -1⟩ [1, 2, 3] =
      ([], [1, 2, 3], some FErr.pageSizeMismatch) ∧
    FileMgr.Write 4 [] ⟨"g", -1⟩ [1, 2, 3] = ([], some FErr.pageSizeMismatch) :=
  C6_theorem 4 [] ⟨"g", -1⟩ [1, 2, 3] (by decide)

/-! ### C7 -/

/-- Looking a name up past a list that does not contain it. -/
theorem fsLookup_append (fs l : FS) (name : String)
    (h : fsLookup fs name = none) :
    fsLookup (fs ++ l) name = fsLookup l name := by
  induction fs with
  | nil => rfl
  | cons hd tl ih =>
      obtain ⟨n, c⟩ := hd
      rw [fsLookup] at h
      rw [List.cons_append, fsLookup]
      by_cases hn : n = name
      · rw [if_pos hn] at h
        exact absurd h (by simp)
      · rw [if_neg hn] at h ⊢
        exact ih h

/-- C7: `FileMgr.Length` returns the file size divided by the block
size with truncating division — a file of `q` complete blocks plus a
trailing partial block of `r < blocksize` bytes reports exactly `q` —
and a filename with no underlying file reports `0` without error, the
file being created empty as a side effect of the open step. -/
theorem C7_theorem (bs : Nat) (fs : FS) (name : String) (c : List Nat)
    (q r : Nat) (hbs : 0 < bs) :
    (fsLookup fs name = some c → c.length = q * bs + r → r < bs →
      FileMgr.Length bs fs name = (fs, .ok q)) ∧
    (fsLookup fs name = none →
      FileMgr.Length bs fs name = (fs ++ [(name, [])], .ok 0)) := by
  constructor
  · intro hc hql hr
    have hget : getFile fs name = fs := by
      rw [getFile, hc]
    rw [FileMgr.Length, hget, fileContent, hc]
    have : (c.length : Nat) / bs = q := by
      rw [hql, Nat.mul_comm, Nat.mul_add_div hbs, Nat.div_eq_of_lt hr]
      omega
    rw [Option.getD_some, this]
  · intro hc
    have hget : getFile fs name = fs ++ [(name, [])] := by
      rw [getFile, hc]
    have hl : fsLookup (fs ++ [(name, [])]) name = some [] := by
      rw [fsLookup_append fs _ name hc, fsLookup, if_pos rfl]
    rw [FileMgr.Length, hget, fileContent, hl, Option.getD_some]
    norm_num

/-- Witness for C7: a 5-byte file under block size 4 reports one
block; a missing file reports zero and is created empty. -/
theorem C7_witness :
    FileMgr.Length 4 [("f", [1, 2, 3, 4, 5])] "f" =
      ([("f", [1, 2, 3, 4, 5])], .ok 1) ∧
    FileMgr.Length 4 [] "g" = ([] ++ [("g", [])], .ok 0) :=
  ⟨(C7_theorem 4 [("f", [1, 2, 3, 4, 5])] "f" [1, 2, 3, 4, 5] 1 1
      (by decide)).1 (by decide) (by decide) (by decide),
   (C7_theorem 4 [] "g" [] 0 0 (by decide)).2 (by decide)⟩

/-! ### C3 -/

/-- C3 (amended): `FileMgr.Read` on a block for which fewer than
`blocksize` bytes are available reports an I/O failure rather than
silently zero-filling; when no byte is available at the block's offset
the page buffer is left unchanged (`EOF`), but when some bytes are
available they are deposited into the front of the page buffer before
the failure is reported (`ErrUnexpectedEOF`) — a partial mutation of
the supplied page. -/
theorem C3_theorem (bs : Nat) (fs : FS) (name : String) (c : List Nat) (i : Nat)
    (p : Page) (hbs : 0 < bs) (hp : p.length = bs)
    (hc : fsLookup fs name = some c) :
    (c.length ≤ i * bs →
      FileMgr.Read bs fs ⟨name, (i : Int)⟩ p = (fs, p, some FErr.eof)) ∧
    (i * bs < c.length → c.length < i * bs + bs →
      FileMgr.Read bs fs ⟨name, (i : Int)⟩ p =
        (fs, c.drop (i * bs) ++ p.drop (c.length - i * bs),
         some FErr.unexpectedEOF)) := by
  have hget : getFile fs name = fs := by
    rw [getFile, hc]
  have hmul : ((i : Int) * (bs : Int)) = ((i * bs : Nat) : Int) := by
    push_cast
    ring
  have hnonneg : ¬ ((i : Int) * (bs : Int) < 0) := by
    rw [hmul]
    omega
  have htoNat : ((i : Int) * (bs : Int)).toNat = i * bs := by
    rw [hmul]
    omega
  constructor
  · intro hle
    have havail : c.length - i * bs = 0 := by omega
    rw [FileMgr.Read, if_neg (by omega : ¬ (p.length ≠ bs))]
    rw [if_neg hnonneg, hget, fileContent, hc, Option.getD_some, htoNat, readFull,
      havail]
    rw [Nat.min_zero, if_neg (by omega), if_pos rfl]
    rw [List.take_zero, List.nil_append, List.drop_zero]
  · intro hlt hshort
    have havail : min bs (c.length - i * bs) = c.length - i * bs := by omega
    rw [FileMgr.Read, if_neg (by omega : ¬ (p.length ≠ bs))]
    rw [if_neg hnonneg, hget, fileContent, hc, Option.getD_some, htoNat, readFull,
      havail]
    rw [if_neg (by omega), if_neg (by omega)]
    have htk : (c.drop (i * bs)).take (c.length - i * bs) = c.drop (i * bs) := by
      apply List.take_of_length_le
      rw [List.length_drop]
    rw [htk]

/-- Witness for C3 (amended): block size 4 over a 2-byte file — the
failed read deposits the two available bytes into the page. -/
theorem C3_witness :
    FileMgr.Read 4 [("f", [1, 2])] ⟨"f", ((0 : Nat) : Int)⟩ [9, 9, 9, 9] =
      ([("f", [1, 2])], [1, 2].drop (0 * 4) ++ [9, 9, 9, 9].drop ([1, 2].length - 0 * 4),
       some FErr.unexpectedEOF) :=
  (C3_theorem 4 [("f", [1, 2])] "f" [1, 2] 0 [9, 9, 9, 9] (by decide) (by decide)
    (by decide)).2 (by decide) (by decide)

/-- Counterexample for C3 as stated: reading block 0 of a 2-byte file
with block size 4 reports an I/O failure but leaves the page buffer
partially overwritten (`[1, 2, 9, 9]` instead of the original
`[9, 9, 9, 9]`), and not zero-filled. -/
theorem C3_counterexample :
    FileMgr.Read 4 [("f", [1, 2])] ⟨"f", 0⟩ [9, 9, 9, 9] =
      ([("f", [1, 2])], [1, 2, 9, 9], some FErr.unexpectedEOF) ∧
    ([1, 2, 9, 9] : List Nat) ≠ [9, 9, 9, 9] ∧
    ([1, 2, 9, 9] : List Nat) ≠ [0, 0, 0, 0] := by
  refine ⟨by decide, by decide, by decide⟩

/-! ### C4 -/

/-- One `Append` on a single-file system holding `i` complete zero
blocks returns block number `i` and extends the file to `i + 1` zero
blocks. -/
theorem append_step (bs : Nat) (name : String) (i : Nat) (hbs : 0 < bs) :
    FileMgr.Append bs [(name, List.replicate (i * bs) 0)] name =
      ([(name, List.replicate ((i + 1) * bs) 0)], .ok ⟨name, (i : Int)⟩) := by
  have hlk : fsLookup [(name, List.replicate (i * bs) 0)] name =
      some (List.replicate (i * bs) 0) := by
    rw [fsLookup, if_pos rfl]
  have hget : getFile [(name, List.replicate (i * bs) 0)] name =
      [(name, List.replicate (i * bs) 0)] := by
    rw [getFile, hlk]
  have hcontent : fileContent [(name, List.replicate (i * bs) 0)] name =
      List.replicate (i * bs) 0 := by
    rw [fileContent, hlk, Option.getD_some]
  have hdiv : (List.replicate (i * bs) (0 : Nat)).length / bs = i := by
    rw [List.length_replicate, Nat.mul_div_cancel _ hbs]
  have hw : writeAt (List.replicate (i * bs) 0) (i * bs) (List.replicate bs 0) =
      List.replicate ((i + 1) * bs) 0 := by
    rw [writeAt]
    simp only [List.length_replicate, List.take_replicate, Nat.min_self,
      Nat.sub_self, List.replicate_zero, List.drop_replicate, List.append_nil,
      List.nil_append]
    rw [show i * bs - (i * bs + bs) = 0 by omega, List.replicate_zero,
      List.append_nil, ← List.replicate_add,
      show i * bs + bs = (i + 1) * bs by ring]
  rw [FileMgr.Append, hget, hcontent, hdiv, hw, fsSet, if_pos rfl]

/-- After `i` sequential appends on an initially empty file, the file
system is the single file holding `i * blocksize` zero bytes. -/
theorem iterAppend_state (bs : Nat) (name : String) (hbs : 0 < bs) :
    ∀ i, iterAppend bs name i [(name, [])] =
      [(name, List.replicate (i * bs) 0)] := by
  intro i
  induction i with
  | zero =>
      rw [iterAppend, Nat.zero_mul, List.replicate_zero]
  | succ n ih =>
      rw [iterAppend, ih, append_step bs name n hbs]

/-- C4: `Append` called repeatedly on an initially empty file returns
block numbers `0, 1, 2, …` in order (the call after `i` previous
appends returns block number `i`); after `i` calls, `Length` reports
exactly `i` blocks; and the file then consists entirely of zero bytes
(`i * blocksize` zeros), so every appended block is zero-filled. -/
theorem C4_theorem (bs : Nat) (name : String) (i : Nat) (hbs : 0 < bs) :
    (FileMgr.Append bs (iterAppend bs name i [(name, [])]) name).2 =
      .ok ⟨name, (i : Int)⟩ ∧
    (FileMgr.Length bs (iterAppend bs name i [(name, [])]) name).2 = .ok i ∧
    fsLookup (iterAppend bs name i [(name, [])]) name =
      some (List.replicate (i * bs) 0) := by
  rw [iterAppend_state bs name hbs i]
  have hlk : fsLookup [(name, List.replicate (i * bs) 0)] name =
      some (List.replicate (i * bs) 0) := by
    rw [fsLookup, if_pos rfl]
  refine ⟨by rw [append_step bs name i hbs], ?_, hlk⟩
  have hget : getFile [(name, List.replicate (i * bs) 0)] name =
      [(name, List.replicate (i * bs) 0)] := by
    rw [getFile, hlk]
  rw [FileMgr.Length, hget, fileContent, hlk, Option.getD_some,
    List.length_replicate, Nat.mul_div_cancel _ hbs]

/-- Witness for C4: the third append on an initially empty file (block
size 4) returns block number 2, and two appends leave 8 zero bytes. -/
theorem C4_witness :
    (FileMgr.Append 4 (iterAppend 4 "f" 2 [("f", [])]) "f").2 =
      .ok ⟨"f", ((2 : Nat) : Int)⟩ ∧
    (FileMgr.Length 4 (iterAppend 4 "f" 2 [("f", [])]) "f").2 = .ok 2 ∧
    fsLookup (iterAppend 4 "f" 2 [("f", [])]) "f" =
      some (List.replicate (2 * 4) 0) :=
  C4_theorem 4 "f" 2 (by decide)

/-! ### C8 -/

/-- Membership after removing one named file. -/
theorem removeFile_mem (fs : FS) (name : String) (e : String × List Nat) :
    e ∈ removeFile fs name ↔ e ∈ fs ∧ e.1 ≠ name := by
  rw [removeFile, List.mem_filter]
  simp

/-- Membership across the cleanup loop: an entry survives exactly when
no temp-prefixed name in the processed listing matches it. -/
theorem cleanupLoop_mem (entries : List String) (fs : FS) (e : String × List Nat) :
    e ∈ cleanupLoop entries fs ↔
      e ∈ fs ∧ ∀ n ∈ entries, startsWithGo n "temp" = true → n ≠ e.1 := by
  induction entries generalizing fs with
  | nil => simp [cleanupLoop]
  | cons a rest ih =>
      rw [cleanupLoop, ih]
      by_cases ha : startsWithGo a "temp" = true
      · rw [if_pos ha, removeFile_mem]
        constructor
        · rintro ⟨⟨he, hne⟩, hrest⟩
          refine ⟨he, ?_⟩
          intro n hn hs
          rcases List.mem_cons.mp hn with h | h
          · subst h
            exact fun hh => hne hh.symm
          · exact hrest n h hs
        · rintro ⟨he, hall⟩
          refine ⟨⟨he, ?_⟩, ?_⟩
          · intro hh
            exact hall a (List.mem_cons_self a rest) ha hh.symm
          · intro n hn hs
            exact hall n (List.mem_cons_of_mem a hn) hs
      · rw [if_neg ha]
        constructor
        · rintro ⟨he, hrest⟩
          refine ⟨he, ?_⟩
          intro n hn hs
          rcases List.mem_cons.mp hn with h | h
          · subst h
            exact absurd hs ha
          · exact hrest n h hs
        · rintro ⟨he, hall⟩
          refine ⟨he, ?_⟩
          intro n hn hs
          exact hall n (List.mem_cons_of_mem a hn) hs

/-- C8: constructing a FileMgr over an existing directory deletes
exactly the entries whose name begins with the literal prefix
`"temp"`: an entry is present after the cleanup if and only if it was
present before and its name does not start with `temp`. -/
theorem C8_theorem (fs : FS) (e : String × List Nat) :
    e ∈ NewFileMgrCleanup fs ↔ e ∈ fs ∧ startsWithGo e.1 "temp" = false := by
  rw [NewFileMgrCleanup, cleanupLoop_mem]
  constructor
  · rintro ⟨he, hall⟩
    refine ⟨he, ?_⟩
    by_cases hs : startsWithGo e.1 "temp" = true
    · exact absurd rfl (hall e.1 (List.mem_map.mpr ⟨e, he, rfl⟩) hs)
    · simpa using hs
  · rintro ⟨he, hf⟩
    refine ⟨he, ?_⟩
    intro n hn hs heq
    subst heq
    rw [hf] at hs
    cases hs

/-- Witness for C8: in the directory `{temp1.dat, tempX, keep.db}` the
entry `keep.db` survives the cleanup, and `temp1.dat` does not. -/
theorem C8_witness :
    ("keep.db", ([] : List Nat)) ∈
      NewFileMgrCleanup [("temp1.dat", []), ("tempX", []), ("keep.db", [])] ∧
    ¬ (("temp1.dat", ([] : List Nat)) ∈
      NewFileMgrCleanup [("temp1.dat", []), ("tempX", []), ("keep.db", [])]) :=
  ⟨(C8_theorem [("temp1.dat", []), ("tempX", []), ("keep.db", [])]
      ("keep.db", [])).mpr ⟨by decide, by decide⟩,
   fun h => by
     have := (C8_theorem [("temp1.dat", []), ("tempX", []), ("keep.db", [])]
       ("temp1.dat", [])).mp h
     revert this
     decide⟩

end SimpleDB
